import Mathlib

/-!
Verification of the browser-apollo pipeline against its specification.

This file shallowly embeds the pure computational parts of the repository
(search-id regex extraction, URL fragment/query parsing, authentication file
selection, the retry counter, Apollo state detection, dataset saving, the
environment-variable configuration loader, session-validation classification,
Apify URL construction, and the allowed-domain check) and proves theorems
about them.

Modelling conventions: Python strings are Lean String values, processed
through their underlying List Char so that every definition reduces in the
kernel.  Python str.lower / str.upper / str.strip are modelled on ASCII data
(all string constants compared by the code are ASCII).  Percent-decoding in
urllib.parse.unquote is modelled byte by byte: a decoded byte b becomes the
character with code point b, whereas CPython decodes maximal percent-encoded
runs as UTF-8 with errors replaced; the two agree on ASCII bytes, and no
non-ASCII decoding result can equal the ASCII parameter names the code looks
up, so the divergence does not affect the properties proved here.
-/

namespace BrowserApollo

/-! ## Shared character and list utilities -/

/-- A character matched by the regex character class given as a-f0-9 in the
search-id patterns of main.py and main_controller.py. -/
def isHexLower (c : Char) : Bool :=
  c.isDigit || ('a' ≤ c && c ≤ 'f')

/-- A hexadecimal digit as accepted by urllib percent-decoding (0-9, a-f, A-F). -/
def isHexAny (c : Char) : Bool :=
  c.isDigit || ('a' ≤ c && c ≤ 'f') || ('A' ≤ c && c ≤ 'F')

/-- Numeric value of a hexadecimal digit. -/
def hexDigitVal (c : Char) : Nat :=
  if c.isDigit then c.toNat - 48
  else if 'a' ≤ c then c.toNat - 97 + 10
  else c.toNat - 65 + 10

/-- Python substring containment (the in operator on str): pat occurs
contiguously inside the list. -/
def hasSub (pat : List Char) : List Char → Bool
  | [] => pat.isEmpty
  | c :: rest => pat.isPrefixOf (c :: rest) || hasSub pat rest

theorem hasSub_iff (pat l : List Char) :
    hasSub pat l = true ↔ ∃ a b, l = a ++ pat ++ b := by
  induction l with
  | nil =>
    simp only [hasSub, List.isEmpty_iff]
    constructor
    · intro h
      exact ⟨[], [], by simp [h]⟩
    · rintro ⟨a, b, h⟩
      rcases List.append_eq_nil.mp ((List.append_eq_nil).mp h.symm).1 with ⟨-, h2⟩
      exact h2
  | cons c rest ih =>
    simp only [hasSub, Bool.or_eq_true, List.isPrefixOf_iff_prefix, ih]
    constructor
    · rintro (⟨t, ht⟩ | ⟨a, b, h⟩)
      · exact ⟨[], t, by simp [ht]⟩
      · exact ⟨c :: a, b, by simp [h]⟩
    · rintro ⟨a, b, h⟩
      cases a with
      | nil => exact Or.inl ⟨b, by simpa using h.symm⟩
      | cons x a2 =>
        right
        refine ⟨a2, b, ?_⟩
        have := h
        simp only [List.cons_append] at this
        exact (List.cons.injEq .. ▸ this).2

/-- Split a list at the first occurrence of the separator character, returning
the parts before and after it, or none when the separator does not occur.
This models Python s.split(sep, 1) restricted to single-character separators. -/
def breakAt (sep : Char) : List Char → Option (List Char × List Char)
  | [] => none
  | c :: rest =>
    if c = sep then some ([], rest)
    else (breakAt sep rest).map (fun p => (c :: p.1, p.2))

theorem breakAt_eq_none_iff (sep : Char) (l : List Char) :
    breakAt sep l = none ↔ sep ∉ l := by
  induction l with
  | nil => simp [breakAt]
  | cons c rest ih =>
    by_cases hc : c = sep
    · subst hc
      simp [breakAt]
    · simp [breakAt, hc, Option.map_eq_none, ih, Ne.symm hc]

theorem breakAt_eq_some (sep : Char) (l a b : List Char)
    (h : breakAt sep l = some (a, b)) : l = a ++ sep :: b ∧ sep ∉ a := by
  induction l generalizing a b with
  | nil => simp [breakAt] at h
  | cons c rest ih =>
    by_cases hc : c = sep
    · subst hc
      simp only [breakAt, if_true, eq_self_iff_true, ite_true, Option.some.injEq,
        Prod.mk.injEq] at h
      simp [← h.1, ← h.2]
    · have h2 : (if c = sep then some (([] : List Char), rest)
          else (breakAt sep rest).map (fun p => (c :: p.1, p.2))) = some (a, b) := h
      rw [if_neg hc] at h2
      replace h := h2
      cases hrec : breakAt sep rest with
      | none => rw [hrec] at h; simp at h
      | some p =>
        rw [hrec] at h
        simp only [Option.map_some', Option.some.injEq] at h
        rcases ih p.1 p.2 (by rw [hrec]) with ⟨h1, h2⟩
        rcases Prod.mk.injEq .. ▸ h with ⟨ha, hb⟩
        constructor
        · rw [← ha, ← hb]
          simp [h1]
        · rw [← ha]
          intro hm
          rcases List.mem_cons.mp hm with h3 | h3
          · exact hc h3.symm
          · exact h2 h3

/-- ASCII model of Python str.lower applied characterwise. -/
def lowerCL (l : List Char) : List Char := l.map Char.toLower

/-- ASCII model of Python str.upper applied characterwise. -/
def upperCL (l : List Char) : List Char := l.map Char.toUpper

/-! ## build_apify_url.py -/

/-- UTF-8 encoding of one character as a list of byte values, as urllib quote
encodes non-safe characters before percent-encoding each byte. -/
def utf8Bytes (c : Char) : List Nat :=
  let n := c.toNat
  if n < 128 then [n]
  else if n < 2048 then [192 ||| (n >>> 6), 128 ||| (n &&& 63)]
  else if n < 65536 then
    [224 ||| (n >>> 12), 128 ||| ((n >>> 6) &&& 63), 128 ||| (n &&& 63)]
  else
    [240 ||| (n >>> 18), 128 ||| ((n >>> 12) &&& 63),
     128 ||| ((n >>> 6) &&& 63), 128 ||| (n &&& 63)]

/-- Uppercase hexadecimal digit character for a value below 16, as used by
urllib quote. -/
def hexUpper (n : Nat) : Char :=
  if n < 10 then Char.ofNat (48 + n) else Char.ofNat (55 + n)

/-- Characters urllib.parse.quote leaves unescaped with its default safe
argument: ASCII letters and digits, underscore, period, hyphen, tilde, and
the default safe character, the slash. -/
def quoteSafe (c : Char) : Bool :=
  c.isAlpha || c.isDigit || c = '_' || c = '.' || c = '-' || c = '~' || c = '/'

/-- Embedding of urllib.parse.quote with default arguments, used by
url_encode_job_titles in build_apify_url.py. -/
def pyQuote (s : String) : String :=
  String.mk ((s.data.map (fun c =>
    if quoteSafe c then [c]
    else ((utf8Bytes c).map
      (fun b => ['%', hexUpper (b / 16), hexUpper (b % 16)])).flatten)).flatten)

/-- The ten job titles of build_apify_url.py (module constant JOB_TITLES). -/
def JOB_TITLES : List String :=
  ["CEO", "CTO", "CFO", "VP Sales", "VP Marketing",
   "VP Business Development", "Head of Sales", "Head of Marketing",
   "Director of Sales", "Sales Manager"]

/-- Embedding of url_encode_job_titles from build_apify_url.py. -/
def url_encode_job_titles (titles : List String) : List String :=
  titles.map pyQuote

/-- The fixed people-search URL text preceding the search id in
build_apify_url.py (the base_url literal up to the final equals sign). -/
def apolloPeoplePrefix : String :=
  "https://app.apollo.io/#/people?page=1&sortAscending=false&sortByField=%5Bnone%5D&qOrganizationSearchListId="

/-- Embedding of build_apify_url from build_apify_url.py: the validation
check mirrors the Python test of a falsy search id or one of length below
ten, and the constructed URL concatenates the base URL with one
percent-encoded personTitles parameter per job title. -/
def build_apify_url (search_id : String) : Option String :=
  if search_id = "" ∨ search_id.data.length < 10 then none
  else
    some (apolloPeoplePrefix ++ search_id ++
      String.join ((url_encode_job_titles JOB_TITLES).map
        (fun t => "&personTitles[]=" ++ t)))

/-- C9: build_apify_url returns None exactly when the search id is falsy or
shorter than ten characters; every returned URL starts with the fixed Apollo
people-search prefix, contains the search id verbatim as the value of
qOrganizationSearchListId, and ends with one percent-encoded personTitles
parameter per entry of the ten-element JOB_TITLES list, in list order. -/
theorem c9_build_apify_url (sid : String) :
    (build_apify_url sid = none ↔ (sid = "" ∨ sid.data.length < 10)) ∧
    (∀ u, build_apify_url sid = some u →
      u = apolloPeoplePrefix ++ sid ++
            String.join (JOB_TITLES.map (fun t => "&personTitles[]=" ++ pyQuote t)) ∧
      apolloPeoplePrefix.data.isPrefixOf u.data = true ∧
      hasSub ("qOrganizationSearchListId=" ++ sid).data u.data = true ∧
      JOB_TITLES.length = 10) := by
  constructor
  · constructor
    · intro h
      by_contra hc
      rw [build_apify_url, if_neg hc] at h
      exact Option.noConfusion h
    · intro h
      rw [build_apify_url, if_pos h]
  · intro u hu
    have hcond : ¬(sid = "" ∨ sid.data.length < 10) := by
      intro hc
      rw [build_apify_url, if_pos hc] at hu
      exact Option.noConfusion hu
    rw [build_apify_url, if_neg hcond] at hu
    have hu2 : u = apolloPeoplePrefix ++ sid ++
        String.join (JOB_TITLES.map (fun t => "&personTitles[]=" ++ pyQuote t)) := by
      have := Option.some.inj hu
      rw [← this]
      simp [url_encode_job_titles, List.map_map]
      rfl
    refine ⟨hu2, ?_, ?_, by decide⟩
    · rw [List.isPrefixOf_iff_prefix, hu2, String.data_append, String.data_append]
      exact ⟨sid.data ++ (String.join (JOB_TITLES.map
        (fun t => "&personTitles[]=" ++ pyQuote t))).data, by simp⟩
    · have hpre : apolloPeoplePrefix =
          "https://app.apollo.io/#/people?page=1&sortAscending=false&sortByField=%5Bnone%5D&"
            ++ "qOrganizationSearchListId=" := by decide
      rw [hasSub_iff]
      refine ⟨("https://app.apollo.io/#/people?page=1&sortAscending=false&sortByField=%5Bnone%5D&" : String).data,
        (String.join (JOB_TITLES.map (fun t => "&personTitles[]=" ++ pyQuote t))).data, ?_⟩
      rw [hu2, hpre]
      simp [String.data_append]

/-- Witness for C9: a ten-character search id is accepted and produces the
URL described by the theorem. -/
theorem c9_build_apify_url_witness :
    build_apify_url "abcdefghij" =
      some (apolloPeoplePrefix ++ "abcdefghij" ++
        String.join (JOB_TITLES.map (fun t => "&personTitles[]=" ++ pyQuote t))) := by
  have h : (build_apify_url "abcdefghij").isSome = true := by decide
  have hu := (Option.some_get h).symm
  have h2 := ((c9_build_apify_url "abcdefghij").2 _ hu).1
  rw [hu, h2]

/-! ## Search-id regex extraction (main.py and main_controller.py) -/

/-- A window of 24 characters from the regex class a-f0-9 starting at
position i of the list: exactly the positions at which the bare pattern of
re.search can match. -/
def hexWindowAt (l : List Char) (i : Nat) : Prop :=
  24 ≤ (l.drop i).length ∧ ((l.drop i).take 24).all isHexLower = true

instance (l : List Char) (i : Nat) : Decidable (hexWindowAt l i) :=
  inferInstanceAs
    (Decidable (24 ≤ (l.drop i).length ∧ ((l.drop i).take 24).all isHexLower = true))

theorem hexWindowAt_cons_succ (c : Char) (rest : List Char) (i : Nat) :
    hexWindowAt (c :: rest) (i + 1) ↔ hexWindowAt rest i := by
  simp [hexWindowAt]

/-- Leftmost match of the bare 24-hex-character regex pattern, scanning
candidate start positions left to right as re.search does. -/
def searchBareHex24 : List Char → Option (List Char)
  | [] => none
  | c :: rest =>
    if hexWindowAt (c :: rest) 0 then some ((c :: rest).take 24)
    else searchBareHex24 rest

theorem searchBareHex24_eq_none_iff (l : List Char) :
    searchBareHex24 l = none ↔ ∀ i, ¬ hexWindowAt l i := by
  induction l with
  | nil =>
    simp only [searchBareHex24, true_iff]
    intro i h
    simp [hexWindowAt] at h
  | cons c rest ih =>
    by_cases h : hexWindowAt (c :: rest) 0
    · simp only [searchBareHex24, if_pos h]
      constructor
      · intro hc; exact Option.noConfusion hc
      · intro hall; exact (hall 0 h).elim
    · simp only [searchBareHex24, if_neg h, ih]
      constructor
      · intro hall i
        cases i with
        | zero => exact h
        | succ j => exact fun hw => hall j ((hexWindowAt_cons_succ c rest j).mp hw)
      · intro hall i
        exact fun hw => hall (i + 1) ((hexWindowAt_cons_succ c rest i).mpr hw)

theorem searchBareHex24_eq_some_iff (l w : List Char) :
    searchBareHex24 l = some w ↔
      ∃ i, hexWindowAt l i ∧ w = (l.drop i).take 24 ∧ ∀ j < i, ¬ hexWindowAt l j := by
  induction l generalizing w with
  | nil =>
    constructor
    · intro hw; exact Option.noConfusion hw
    · rintro ⟨i, hi, -, -⟩
      exact absurd hi (by simp [hexWindowAt])
  | cons c rest ih =>
    by_cases h : hexWindowAt (c :: rest) 0
    · simp only [searchBareHex24, if_pos h]
      constructor
      · intro hw
        exact ⟨0, h, by simpa using (Option.some.inj hw).symm,
          fun j hj => absurd hj (Nat.not_lt_zero j)⟩
      · rintro ⟨i, hwin, hw, hmin⟩
        cases i with
        | zero => rw [hw]; simp
        | succ j => exact (hmin 0 (Nat.succ_pos j) h).elim
    · simp only [searchBareHex24, if_neg h, ih]
      constructor
      · rintro ⟨i, hwin, hw, hmin⟩
        refine ⟨i + 1, (hexWindowAt_cons_succ c rest i).mpr hwin, by simpa using hw, ?_⟩
        intro j hj
        cases j with
        | zero => exact h
        | succ k =>
          exact fun hk => hmin k (Nat.lt_of_succ_lt_succ hj)
            ((hexWindowAt_cons_succ c rest k).mp hk)
      · rintro ⟨i, hwin, hw, hmin⟩
        cases i with
        | zero => exact (h hwin).elim
        | succ j =>
          refine ⟨j, (hexWindowAt_cons_succ c rest j).mp hwin, by simpa using hw, ?_⟩
          intro k hk hwk
          exact hmin (k + 1) (Nat.succ_lt_succ hk) ((hexWindowAt_cons_succ c rest k).mpr hwk)

/-- The literal part of the anchored regex pattern in main_controller.py. -/
def anchorLit : List Char := "search ID: ".data

/-- A match of the anchored pattern at position i: the literal followed by a
24-character hex window (the capture group starts 11 characters later). -/
def anchoredWindowAt (l : List Char) (i : Nat) : Prop :=
  anchorLit.isPrefixOf (l.drop i) = true ∧ hexWindowAt l (i + 11)

instance (l : List Char) (i : Nat) : Decidable (anchoredWindowAt l i) :=
  inferInstanceAs (Decidable (_ = true ∧ hexWindowAt l (i + 11)))

theorem anchoredWindowAt_cons_succ (c : Char) (rest : List Char) (i : Nat) :
    anchoredWindowAt (c :: rest) (i + 1) ↔ anchoredWindowAt rest i := by
  unfold anchoredWindowAt
  rw [List.drop_succ_cons]
  rw [show i + 1 + 11 = (i + 11) + 1 by omega]
  rw [hexWindowAt_cons_succ]

/-- Leftmost match of the anchored regex pattern, returning the capture
group (the 24 hex characters after the literal). -/
def searchAnchoredHex24 : List Char → Option (List Char)
  | [] => none
  | c :: rest =>
    if anchoredWindowAt (c :: rest) 0 then some (((c :: rest).drop 11).take 24)
    else searchAnchoredHex24 rest

theorem searchAnchoredHex24_eq_none_iff (l : List Char) :
    searchAnchoredHex24 l = none ↔ ∀ i, ¬ anchoredWindowAt l i := by
  induction l with
  | nil =>
    simp only [searchAnchoredHex24, true_iff]
    intro i h
    rcases h with ⟨h1, -⟩
    simp [anchorLit] at h1
  | cons c rest ih =>
    by_cases h : anchoredWindowAt (c :: rest) 0
    · simp only [searchAnchoredHex24, if_pos h]
      constructor
      · intro hc; exact Option.noConfusion hc
      · intro hall; exact (hall 0 h).elim
    · simp only [searchAnchoredHex24, if_neg h, ih]
      constructor
      · intro hall i
        cases i with
        | zero => exact h
        | succ j => exact fun hw => hall j ((anchoredWindowAt_cons_succ c rest j).mp hw)
      · intro hall i
        exact fun hw => hall (i + 1) ((anchoredWindowAt_cons_succ c rest i).mpr hw)

theorem searchAnchoredHex24_eq_some_iff (l w : List Char) :
    searchAnchoredHex24 l = some w ↔
      ∃ i, anchoredWindowAt l i ∧ w = (l.drop (i + 11)).take 24 ∧
        ∀ j < i, ¬ anchoredWindowAt l j := by
  induction l generalizing w with
  | nil =>
    constructor
    · intro hw; exact Option.noConfusion hw
    · rintro ⟨i, ⟨h1, -⟩, -, -⟩
      exact absurd h1 (by simp [anchorLit])
  | cons c rest ih =>
    by_cases h : anchoredWindowAt (c :: rest) 0
    · simp only [searchAnchoredHex24, if_pos h]
      constructor
      · intro hw
        exact ⟨0, h, by simpa using (Option.some.inj hw).symm,
          fun j hj => absurd hj (Nat.not_lt_zero j)⟩
      · rintro ⟨i, hwin, hw, hmin⟩
        cases i with
        | zero => simp [hw]
        | succ j => exact (hmin 0 (Nat.succ_pos j) h).elim
    · simp only [searchAnchoredHex24, if_neg h, ih]
      constructor
      · rintro ⟨i, hwin, hw, hmin⟩
        refine ⟨i + 1, (anchoredWindowAt_cons_succ c rest i).mpr hwin, ?_, ?_⟩
        · rw [show i + 1 + 11 = (i + 11) + 1 by omega, List.drop_succ_cons]
          exact hw
        · intro j hj
          cases j with
          | zero => exact h
          | succ k =>
            exact fun hk => hmin k (Nat.lt_of_succ_lt_succ hj)
              ((anchoredWindowAt_cons_succ c rest k).mp hk)
      · rintro ⟨i, hwin, hw, hmin⟩
        cases i with
        | zero => exact (h hwin).elim
        | succ j =>
          refine ⟨j, (anchoredWindowAt_cons_succ c rest j).mp hwin, ?_, ?_⟩
          · rw [show j + 1 + 11 = (j + 11) + 1 by omega, List.drop_succ_cons] at hw
            exact hw
          · intro k hk hwk
            exact hmin (k + 1) (Nat.succ_lt_succ hk)
              ((anchoredWindowAt_cons_succ c rest k).mpr hwk)

/-- Embedding of the search-id extraction after the agent run in
main_controller.py main (lines 367-372): first the anchored pattern, then
the bare 24-hex-character pattern. -/
def controllerExtractSearchId (resultStr : String) : Option String :=
  match searchAnchoredHex24 resultStr.data with
  | some w => some (String.mk w)
  | none => (searchBareHex24 resultStr.data).map String.mk

/-- Embedding of the search-id extraction after the agent run in main.py
main (lines 316-325): only the bare 24-hex-character pattern. -/
def mainExtractSearchId (resultStr : String) : Option String :=
  (searchBareHex24 resultStr.data).map String.mk

/-- Definition following the words of claim C1: the first substring of the
result consisting of exactly 24 characters from the class a-f0-9.  It is
compared against the extraction the code performs. -/
def specFirstHex24 (resultStr : String) : Option String :=
  (searchBareHex24 resultStr.data).map String.mk

/-- The five job titles of main_controller.py (module constant JOB_TITLES
there). -/
def JOB_TITLES_CONTROLLER : List String :=
  ["CEO", "CTO", "CFO", "VP Sales", "VP Marketing"]

/-- The Apify-ready URL built by main_controller.py main once a search id
has been extracted (lines 376-385). -/
def controllerApolloUrl (search_id : String) : String :=
  apolloPeoplePrefix ++ search_id ++
    String.join (JOB_TITLES_CONTROLLER.map (fun t => "&personTitles[]=" ++ pyQuote t))

/-- The post-run step of the main_controller.py pipeline: none models the
branch that prints the failure message and returns without ever invoking
run_apify_scraper; some url models proceeding to the scraper with the
constructed URL. -/
def controllerPipelineAfterRun (resultStr : String) : Option String :=
  (controllerExtractSearchId resultStr).map controllerApolloUrl

/-- A result string on which C1 as stated fails: its first 24-hex-character
substring is at the start, but the anchored pattern matches later, so the
code extracts the later identifier, not the first such substring. -/
def c1Input : String :=
  "deadbeefdeadbeefdeadbeef search ID: 000011112222333344445555"

/-- Counterexample to C1 as stated: on c1Input the pipeline extracts the
hex group of the anchored pattern, which differs from the first substring
of exactly 24 characters from a-f0-9. -/
theorem c1_counterexample :
    controllerExtractSearchId c1Input = some "000011112222333344445555" ∧
    specFirstHex24 c1Input = some "deadbeefdeadbeefdeadbeef" ∧
    controllerExtractSearchId c1Input ≠ specFirstHex24 c1Input := by
  refine ⟨by decide, by decide, by decide⟩

/-- C1 amended: main_controller.py first tries the anchored pattern and
extracts its capture group (which need not be the first 24-hex substring of
the result, as the counterexample shows); only when the anchored pattern
does not match does it extract the first substring of exactly 24 characters
from a-f0-9, which is also what main.py extracts; extraction fails, and the
pipeline then aborts without calling the scraper, exactly when the result
contains no 24-character lowercase-hex substring. -/
theorem c1_search_id_extraction (s : String) :
    (controllerExtractSearchId s = none ↔ ∀ i, ¬ hexWindowAt s.data i) ∧
    (controllerPipelineAfterRun s = none ↔ controllerExtractSearchId s = none) ∧
    (searchAnchoredHex24 s.data = none →
      controllerExtractSearchId s = specFirstHex24 s) ∧
    (∀ w, searchAnchoredHex24 s.data = some w →
      controllerExtractSearchId s = some (String.mk w)) ∧
    (mainExtractSearchId s = specFirstHex24 s) ∧
    (∀ w, specFirstHex24 s = some w ↔
      ∃ i, hexWindowAt s.data i ∧ w = String.mk ((s.data.drop i).take 24) ∧
        ∀ j < i, ¬ hexWindowAt s.data j) := by
  have hCE : controllerExtractSearchId s = none ↔
      searchAnchoredHex24 s.data = none ∧ searchBareHex24 s.data = none := by
    unfold controllerExtractSearchId
    cases h : searchAnchoredHex24 s.data with
    | some w => simp [h]
    | none =>
      cases h2 : searchBareHex24 s.data with
      | some w => simp [h2]
      | none => simp [h2]
  refine ⟨?_, ?_, ?_, ?_, rfl, ?_⟩
  · rw [hCE, searchAnchoredHex24_eq_none_iff, searchBareHex24_eq_none_iff]
    constructor
    · rintro ⟨-, h2⟩; exact h2
    · intro h2
      exact ⟨fun i hw => h2 (i + 11) hw.2, h2⟩
  · simp [controllerPipelineAfterRun, Option.map_eq_none']
  · intro h
    simp [controllerExtractSearchId, h, specFirstHex24]
  · intro w h
    simp [controllerExtractSearchId, h]
  · intro w
    constructor
    · intro h
      rcases Option.map_eq_some'.mp h with ⟨v, hv, hw⟩
      rcases (searchBareHex24_eq_some_iff s.data v).mp hv with ⟨i, hwin, hveq, hmin⟩
      exact ⟨i, hwin, by rw [← hw, hveq], hmin⟩
    · rintro ⟨i, hwin, hw, hmin⟩
      have hb : searchBareHex24 s.data = some ((s.data.drop i).take 24) :=
        (searchBareHex24_eq_some_iff s.data ((s.data.drop i).take 24)).mpr
          ⟨i, hwin, rfl, hmin⟩
      simp [specFirstHex24, hb, hw]

/-- Witness for C1: applying the amended theorem on a result string where
the anchored pattern does not match. -/
theorem c1_search_id_extraction_witness :
    controllerExtractSearchId "agent returned nothing usable" =
      specFirstHex24 "agent returned nothing usable" :=
  (c1_search_id_extraction "agent returned nothing usable").2.2.1 (by decide)

/-! ## Fragment query-string extraction (get_search_id, save_final_output) -/

/-- Embedding of urllib.parse.unquote composed with the plus-to-space
replacement parse_qsl applies to names and values, written with a fuel
argument so that the recursion is structural.  Percent pairs with two hex
digits decode to the byte value; anything else is kept verbatim.  See the
file header for the byte-wise modelling of multi-byte sequences. -/
def unqFuel : Nat → List Char → List Char
  | 0, _ => []
  | _ + 1, [] => []
  | fuel + 1, c :: rest =>
    if c = '+' then ' ' :: unqFuel fuel rest
    else if c = '%' then
      match rest with
      | a :: b :: rest2 =>
        if isHexAny a && isHexAny b then
          Char.ofNat (16 * hexDigitVal a + hexDigitVal b) :: unqFuel fuel rest2
        else '%' :: unqFuel fuel (a :: b :: rest2)
      | r => '%' :: unqFuel fuel r
    else c :: unqFuel fuel rest

/-- The decoder applied to a whole string: one unit of fuel is spent per
emitted character and every step consumes at least one input character, so
fuel equal to the input length always suffices. -/
def unquotePlusCL (l : List Char) : List Char := unqFuel l.length l

theorem unqFuel_cons_ne_nil (fuel : Nat) (c : Char) (rest : List Char) :
    unqFuel (fuel + 1) (c :: rest) ≠ [] := by
  by_cases h1 : c = '+'
  · simp [unqFuel, h1]
  · by_cases h2 : c = '%'
    · subst h2
      match rest with
      | [] => simp [unqFuel, h1]
      | [a] => simp [unqFuel, h1]
      | a :: b :: r2 =>
        simp only [unqFuel, if_neg h1, if_true, eq_self_iff_true, ite_true]
        split <;> simp
    · simp [unqFuel, h1, h2]

theorem unquotePlusCL_cons_ne_nil (c : Char) (rest : List Char) :
    unquotePlusCL (c :: rest) ≠ [] := by
  unfold unquotePlusCL
  rw [List.length_cons]
  exact unqFuel_cons_ne_nil rest.length c rest

/-- Split on every occurrence of the separator, as Python str.split with a
single-character separator. -/
def splitOnChar (sep : Char) : List Char → List (List Char)
  | [] => [[]]
  | c :: rest =>
    match splitOnChar sep rest with
    | [] => [[]]
    | h :: t => if c = sep then [] :: h :: t else (c :: h) :: t

/-- Embedding of urllib.parse.parse_qsl with default arguments, as parse_qs
uses it: fields are split on ampersands; a field without an equals sign or
with an empty value is dropped (keep_blank_values is false); names and
values get pluses replaced by spaces and are percent-decoded. -/
def parseField (field : List Char) : Option (List Char × List Char) :=
  match breakAt '=' field with
  | none => none
  | some nv => if nv.2 = [] then none else
      some (unquotePlusCL nv.1, unquotePlusCL nv.2)

def parseQsl (qs : List Char) : List (List Char × List Char) :=
  (splitOnChar '&' qs).filterMap parseField

theorem parseField_eq_some (field : List Char) (p : List Char × List Char)
    (hf : parseField field = some p) :
    ∃ nv, breakAt '=' field = some nv ∧ nv.2 ≠ [] ∧
      p = (unquotePlusCL nv.1, unquotePlusCL nv.2) := by
  unfold parseField at hf
  cases hb : breakAt '=' field with
  | none => rw [hb] at hf; exact Option.noConfusion hf
  | some nv =>
    rw [hb] at hf
    simp only at hf
    by_cases hv : nv.2 = []
    · rw [if_pos hv] at hf; exact Option.noConfusion hf
    · rw [if_neg hv] at hf
      exact ⟨nv, rfl, hv, (Option.some.inj hf).symm⟩

theorem parseQsl_snd_ne_nil (qs : List Char) (p : List Char × List Char)
    (hp : p ∈ parseQsl qs) : p.2 ≠ [] := by
  rcases List.mem_filterMap.mp hp with ⟨field, -, hf⟩
  rcases parseField_eq_some field p hf with ⟨nv, -, hv, hpv⟩
  rw [hpv]
  cases nv2 : nv.2 with
  | nil => exact absurd nv2 hv
  | cons d ds => simp only [nv2]; exact unquotePlusCL_cons_ne_nil d ds

/-- First value parse_qs associates with a key: parse_qs groups values by
name in field order, so the head of the list for a key is the value of the
first field carrying that key. -/
def firstQsValue (qs : List Char) (key : List Char) : Option (List Char) :=
  ((parseQsl qs).find? (fun p => p.1 == key)).map (fun p => p.2)

/-- The fragment of a URL as urlparse returns it: everything after the
first hash character, or empty when there is none. -/
def fragmentCL (url : List Char) : List Char :=
  match breakAt '#' url with
  | none => []
  | some p => p.2

/-- The query-string key both controller actions look up. -/
def qKey : List Char := "qOrganizationSearchListId".data

/-- Outcome of a controller action that either produces the extracted
search id or returns an error ActionResult. -/
inductive ActionOutcome
  | ok (search_id : String)
  | error
deriving DecidableEq

/-- Embedding of the get_search_id controller action of main.py (lines
92-120): the URL fragment must contain a question mark, the query string
after the first question mark is parsed with parse_qs, and the first value
of qOrganizationSearchListId is taken; every failure path raises and is
turned into an error ActionResult. -/
def get_search_id (url : String) : ActionOutcome :=
  let frag := fragmentCL url.data
  match breakAt '?' frag with
  | none => .error
  | some q =>
    match firstQsValue q.2 qKey with
    | none => .error
    | some v => .ok (String.mk v)

/-- Embedding of the search-id extraction inside the save_final_output
controller action of main_controller.py (lines 197-212): the id starts as
None, is assigned only when the fragment is nonempty and contains a
question mark, and a falsy id yields the error ActionResult. -/
def save_final_output_extract (url : String) : ActionOutcome :=
  let frag := fragmentCL url.data
  let sid : Option (List Char) :=
    match frag, breakAt '?' frag with
    | [], _ => none
    | _ :: _, none => none
    | _ :: _, some q => firstQsValue q.2 qKey
  match sid with
  | none => .error
  | some v => if v = [] then .error else .ok (String.mk v)

/-- The query string the actions parse: the part of the fragment after its
first question mark (empty when the fragment has none). -/
def fragQuery (url : String) : List Char :=
  match breakAt '?' (fragmentCL url.data) with
  | none => []
  | some q => q.2

/-- C2: both controller actions extract qOrganizationSearchListId from the
query string after the first question mark inside the URL fragment via
parse_qs, returning the first value of that parameter; they return the
error ActionResult exactly when the fragment contains no question mark or
the key is absent from the parsed query string of the fragment, and on
error no identifier is produced.  The two extractions agree on every URL
(the falsy-value guard of save_final_output can never fire because
parse_qs drops blank values). -/
theorem c2_search_id_extraction (url : String) :
    (get_search_id url = .error ↔
      ('?' ∉ fragmentCL url.data ∨ ∀ p ∈ parseQsl (fragQuery url), p.1 ≠ qKey)) ∧
    (∀ v, get_search_id url = .ok v ↔
      ('?' ∈ fragmentCL url.data ∧
        ∃ pre post val, parseQsl (fragQuery url) = pre ++ (qKey, val) :: post ∧
          v = String.mk val ∧ ∀ p ∈ pre, p.1 ≠ qKey)) ∧
    save_final_output_extract url = get_search_id url := by
  cases hb : breakAt '?' (fragmentCL url.data) with
  | none =>
    have hq : ('?' : Char) ∉ fragmentCL url.data := (breakAt_eq_none_iff _ _).mp hb
    have hg : get_search_id url = .error := by simp [get_search_id, hb]
    refine ⟨iff_of_true hg (Or.inl hq), ?_, ?_⟩
    · intro v
      rw [hg]
      constructor
      · intro h; exact absurd h (by simp)
      · rintro ⟨hmem, -⟩; exact absurd hmem hq
    · rw [hg]
      unfold save_final_output_extract
      cases hf : fragmentCL url.data with
      | nil => simp [hf]
      | cons d ds =>
        rw [hf] at hb
        simp [hf, hb]
  | some q =>
    have hq : ('?' : Char) ∈ fragmentCL url.data := by
      rcases breakAt_eq_some '?' (fragmentCL url.data) q.1 q.2 (by rw [hb]) with ⟨h1, -⟩
      rw [h1]; simp
    have hfq : fragQuery url = q.2 := by simp [fragQuery, hb]
    have hfragne : fragmentCL url.data ≠ [] := by
      intro hf; rw [hf] at hq; exact absurd hq (List.not_mem_nil _)
    cases hfind : (parseQsl q.2).find? (fun p => p.1 == qKey) with
    | none =>
      have hg : get_search_id url = .error := by
        simp [get_search_id, hb, firstQsValue, hfind]
      have habs : ∀ p ∈ parseQsl (fragQuery url), p.1 ≠ qKey := by
        rw [hfq]
        intro p hp
        have := List.find?_eq_none.mp hfind p hp
        simpa using this
      refine ⟨iff_of_true hg (Or.inr habs), ?_, ?_⟩
      · intro v
        rw [hg]
        constructor
        · intro h; exact absurd h (by simp)
        · rintro ⟨-, pre, post, val, hsplit, -, -⟩
          have hmem : (qKey, val) ∈ parseQsl (fragQuery url) := by
            rw [hsplit]; simp
          exact absurd rfl (habs (qKey, val) hmem)
      · rw [hg]
        unfold save_final_output_extract
        cases hf : fragmentCL url.data with
        | nil => exact absurd hf hfragne
        | cons d ds =>
          rw [hf] at hb
          simp [hf, hb, firstQsValue, hfind]
    | some pfound =>
      have hg : get_search_id url = .ok (String.mk pfound.2) := by
        simp [get_search_id, hb, firstQsValue, hfind]
      have hkey : pfound.1 = qKey := by
        have := List.find?_some hfind; simpa using this
      have hmemf : pfound ∈ parseQsl q.2 := List.mem_of_find?_eq_some hfind
      rcases List.find?_eq_some.mp hfind with ⟨-, as, bs, hsplit, has⟩
      refine ⟨?_, ?_, ?_⟩
      · apply iff_of_false
        · rw [hg]; simp
        · rintro (h | h)
          · exact h hq
          · rw [hfq] at h
            exact absurd hkey (h pfound hmemf)
      · intro v
        rw [hg]
        constructor
        · intro h
          have hv : v = String.mk pfound.2 := by
            have := (ActionOutcome.ok.injEq ..) ▸ h
            exact this.symm
          refine ⟨hq, as, bs, pfound.2, ?_, hv, ?_⟩
          · rw [hfq, hsplit]
            congr 1
            rw [← hkey]
          · intro p hp
            have := has p hp
            simpa using this
        · rintro ⟨-, pre, post, val, hsplit2, hv, hpre⟩
          rw [hfq] at hsplit2
          have hfind2 : (parseQsl q.2).find? (fun p => p.1 == qKey) = some (qKey, val) := by
            apply List.find?_eq_some.mpr
            refine ⟨by simp, pre, post, hsplit2, ?_⟩
            intro a ha
            simpa using hpre a ha
          rw [hfind] at hfind2
          have := Option.some.inj hfind2
          rw [hv, this]
      · rw [hg]
        unfold save_final_output_extract
        cases hf : fragmentCL url.data with
        | nil => exact absurd hf hfragne
        | cons d ds =>
          rw [hf] at hb
          have hne : pfound.2 ≠ [] := parseQsl_snd_ne_nil q.2 pfound hmemf
          simp [hf, hb, firstQsValue, hfind, hne]

/-- Witness for C2: the two embedded controller actions agree on a concrete
Apollo URL carrying the parameter in its fragment. -/
theorem c2_search_id_extraction_witness :
    save_final_output_extract
        "https://app.apollo.io/#/people?page=1&qOrganizationSearchListId=abcdef0123" =
      get_search_id
        "https://app.apollo.io/#/people?page=1&qOrganizationSearchListId=abcdef0123" :=
  (c2_search_id_extraction
    "https://app.apollo.io/#/people?page=1&qOrganizationSearchListId=abcdef0123").2.2

/-! ## Authentication configuration (helper/session_manager.py) -/

/-- Snapshot of the file system facts ApolloSessionManager consults: which
paths exist, and the working directory used by Path.resolve. -/
structure FileSystem where
  pathExists : String → Bool
  cwd : String

/-- Path of the verified storage state preferred by the constructor. -/
def verifiedStoragePath : String := "cookies/verified_storage_state.json"

/-- Path of the regular storage state. -/
def regularStoragePath : String := "cookies/storage_state.json"

/-- Path of the legacy cookie file. -/
def legacyCookiesPath : String := "cookies/apollo.json"

/-- The storage_state_path attribute chosen in __init__ (lines 107-114):
the verified session file when it exists, the regular one otherwise. -/
def storage_state_path (fs : FileSystem) : String :=
  if fs.pathExists verifiedStoragePath then verifiedStoragePath
  else regularStoragePath

/-- Model of Path.resolve for the relative legacy path: prefix the working
directory (symbolic links and dot segments play no role here). -/
def resolvePath (fs : FileSystem) (p : String) : String := fs.cwd ++ "/" ++ p

/-- The authentication dictionary returned by _get_auth_config: a
storage_state entry, a cookies_file entry, or the empty dict. -/
inductive AuthConfig
  | storageState (path : String)
  | cookiesFile (path : String)
  | empty
deriving DecidableEq

/-- Embedding of ApolloSessionManager._get_auth_config (lines 282-295). -/
def get_auth_config (fs : FileSystem) : AuthConfig :=
  if fs.pathExists (storage_state_path fs) then
    .storageState (storage_state_path fs)
  else if fs.pathExists legacyCookiesPath then
    .cookiesFile (resolvePath fs legacyCookiesPath)
  else .empty

/-- What validate_session does before any browser work (lines 139-145):
with an empty authentication dictionary it prints and returns False
immediately; otherwise it goes on to create a browser profile and launch
the validation agent. -/
inductive ValidateStart
  | returnFalseNoBrowser
  | proceedWithBrowser
deriving DecidableEq

/-- Embedding of the authentication guard at the top of
ApolloSessionManager.validate_session. -/
def validate_session_start (fs : FileSystem) : ValidateStart :=
  if get_auth_config fs = .empty then .returnFalseNoBrowser
  else .proceedWithBrowser

/-- C3: _get_auth_config prefers the storage-state file, falls back to the
resolved legacy cookie file, and returns the empty dict only when neither
exists; validate_session returns False without launching a browser exactly
in the empty case. -/
theorem c3_auth_config_selection (fs : FileSystem) :
    (fs.pathExists (storage_state_path fs) = true →
      get_auth_config fs = .storageState (storage_state_path fs)) ∧
    (fs.pathExists (storage_state_path fs) = false →
      fs.pathExists legacyCookiesPath = true →
      get_auth_config fs = .cookiesFile (resolvePath fs legacyCookiesPath)) ∧
    (get_auth_config fs = .empty ↔
      fs.pathExists (storage_state_path fs) = false ∧
      fs.pathExists legacyCookiesPath = false) ∧
    (validate_session_start fs = .returnFalseNoBrowser ↔ get_auth_config fs = .empty) := by
  refine ⟨?_, ?_, ?_, ?_⟩
  · intro h
    simp [get_auth_config, h]
  · intro h1 h2
    simp [get_auth_config, h1, h2]
  · by_cases h1 : fs.pathExists (storage_state_path fs) = true
    · simp [get_auth_config, h1]
    · rw [Bool.not_eq_true] at h1
      by_cases h2 : fs.pathExists legacyCookiesPath = true
      · simp [get_auth_config, h1, h2]
      · rw [Bool.not_eq_true] at h2
        simp [get_auth_config, h1, h2]
  · unfold validate_session_start
    by_cases h : get_auth_config fs = .empty
    · simp [h]
    · simp [h]

/-- Witness for C3: on a file system with no authentication files at all,
validate_session stops before any browser is launched. -/
theorem c3_auth_config_selection_witness :
    get_auth_config ⟨fun _ => false, "/work"⟩ = .empty ∧
    validate_session_start ⟨fun _ => false, "/work"⟩ = .returnFalseNoBrowser := by
  have h := c3_auth_config_selection ⟨fun _ => false, "/work"⟩
  have he : get_auth_config ⟨fun _ => false, "/work"⟩ = .empty :=
    (h.2.2.1).mpr ⟨rfl, rfl⟩
  exact ⟨he, (h.2.2.2).mpr he⟩

/-! ## ErrorHandler retry counter (exceptions.py) -/

/-- The data of an ApolloAutomationError that should_retry consults: the
class name, the error code (which defaults to the class name), and the
recoverable flag. -/
structure ErrInfo where
  className : String
  errorCode : String
  recoverable : Bool

/-- The dictionary key built by should_retry: class name, colon, error code. -/
def errKey (e : ErrInfo) : String := e.className ++ ":" ++ e.errorCode

/-- Lookup in the error_counts dictionary with default zero, as
self.error_counts.get(error_key, 0). -/
def getCount (s : List (String × Nat)) (k : String) : Nat :=
  match s.find? (fun p => p.1 == k) with
  | none => 0
  | some p => p.2

/-- Assignment into the error_counts dictionary. -/
def setCount : List (String × Nat) → String → Nat → List (String × Nat)
  | [], k, v => [(k, v)]
  | (k2, v2) :: rest, k, v =>
    if k2 == k then (k2, v) :: rest else (k2, v2) :: setCount rest k v

/-- The fixed max_retries of ErrorHandler.__init__. -/
def max_retries : Nat := 3

/-- Embedding of ErrorHandler.should_retry (lines 256-268), returning the
result together with the updated error_counts state. -/
def should_retry (s : List (String × Nat)) (e : ErrInfo) :
    Bool × List (String × Nat) :=
  if e.recoverable = false then (false, s)
  else
    let key := errKey e
    let cur := getCount s key
    if max_retries ≤ cur then (false, s)
    else (true, setCount s key (cur + 1))

/-- Embedding of ErrorHandler.reset_error_count (lines 280-284): delete
every counter whose key starts with the class name. -/
def reset_error_count (s : List (String × Nat)) (errorClassName : String) :
    List (String × Nat) :=
  s.filter (fun p => !(errorClassName.data.isPrefixOf p.1.data))

/-- Results of n successive should_retry calls with the same error,
threading the counter state. -/
def retrySeq (e : ErrInfo) : List (String × Nat) → Nat → List Bool
  | _, 0 => []
  | s, n + 1 =>
    let r := should_retry s e
    r.1 :: retrySeq e r.2 n

theorem getCount_setCount_self (s : List (String × Nat)) (k : String) (v : Nat) :
    getCount (setCount s k v) k = v := by
  induction s with
  | nil => simp [setCount, getCount, List.find?]
  | cons p rest ih =>
    rcases p with ⟨k2, v2⟩
    by_cases h : k2 == k
    · simp [setCount, h, getCount, List.find?]
    · rw [Bool.not_eq_true] at h
      simp only [setCount, h, Bool.false_eq_true, if_false, getCount, List.find?]
      exact ih

theorem retrySeq_formula (e : ErrInfo) (hrec : e.recoverable = true) (n : Nat)
    (s : List (String × Nat)) :
    retrySeq e s n =
      (List.range n).map
        (fun i => decide (getCount s (errKey e) + i < max_retries)) := by
  induction n generalizing s with
  | zero => simp [retrySeq]
  | succ m ih =>
    have hnotfalse : ¬ e.recoverable = false := by rw [hrec]; simp
    rw [List.range_succ_eq_map]
    by_cases hc : max_retries ≤ getCount s (errKey e)
    · have hstep : should_retry s e = (false, s) := by
        simp [should_retry, hnotfalse, hc]
      simp only [retrySeq, hstep, List.map_cons]
      congr 1
      · simp; omega
      · rw [ih s, List.map_map]
        apply List.map_congr_left
        intro i hi
        simp only [Function.comp_apply, decide_eq_decide, Nat.succ_eq_add_one]
        omega
    · have hstep : should_retry s e =
          (true, setCount s (errKey e) (getCount s (errKey e) + 1)) := by
        simp [should_retry, hnotfalse, hc]
      simp only [retrySeq, hstep, List.map_cons]
      congr 1
      · simp; omega
      · rw [ih, List.map_map, getCount_setCount_self]
        apply List.map_congr_left
        intro i hi
        simp only [Function.comp_apply, decide_eq_decide, Nat.succ_eq_add_one]
        omega

/-- C4: should_retry returns False without touching any counter for a
non-recoverable error; for a recoverable error starting from a fresh
counter it returns True on exactly the first three calls with the same
class name and error code and False on every later call, and
reset_error_count clears the counters for the class so that the next call
retries again. -/
theorem c4_should_retry_counter (e : ErrInfo) (s : List (String × Nat)) (n : Nat) :
    (e.recoverable = false → should_retry s e = (false, s)) ∧
    (e.recoverable = true → getCount s (errKey e) = 0 →
      retrySeq e s n = (List.range n).map (fun i => decide (i < max_retries))) ∧
    getCount (reset_error_count s e.className) (errKey e) = 0 ∧
    (e.recoverable = true →
      (should_retry (reset_error_count s e.className) e).1 = true) := by
  have hreset : getCount (reset_error_count s e.className) (errKey e) = 0 := by
    unfold getCount
    have hfind : (reset_error_count s e.className).find?
        (fun p => p.1 == errKey e) = none := by
      apply List.find?_eq_none.mpr
      intro p hp hbeq
      have hkey : p.1 = errKey e := by simpa using hbeq
      have hfilt := (List.mem_filter.mp hp).2
      rw [hkey] at hfilt
      have hpre : e.className.data.isPrefixOf (errKey e).data = true := by
        unfold errKey
        rw [String.data_append, String.data_append, List.isPrefixOf_iff_prefix]
        rw [List.append_assoc]
        exact List.prefix_append e.className.data _
      rw [hpre] at hfilt
      simp at hfilt
    rw [hfind]
  refine ⟨?_, ?_, hreset, ?_⟩
  · intro h
    simp [should_retry, h]
  · intro hrec h0
    rw [retrySeq_formula e hrec n s, h0]
    simp
  · intro hrec
    have hnotfalse : ¬ e.recoverable = false := by rw [hrec]; simp
    simp [should_retry, hnotfalse, hreset, max_retries]

/-- Witness for C4: a fresh recoverable error retries exactly three times
over five consecutive calls. -/
theorem c4_should_retry_counter_witness :
    ErrInfo.recoverable ⟨"PageLoadError", "PageLoadError", true⟩ = true ∧
    getCount [] (errKey ⟨"PageLoadError", "PageLoadError", true⟩) = 0 ∧
    retrySeq ⟨"PageLoadError", "PageLoadError", true⟩ [] 5 =
      [true, true, true, false, false] := by
  refine ⟨rfl, rfl, ?_⟩
  have h := (c4_should_retry_counter ⟨"PageLoadError", "PageLoadError", true⟩ [] 5).2.1
    rfl rfl
  rw [h]
  decide

/-! ## Apollo state detection (monitoring.py) -/

/-- The apollo_state_map dictionary built in ApolloMonitoringSystem.__init__
(lines 75-82), in insertion order. -/
def apollo_state_map : List (String × String) :=
  [("/login", "authentication_page"),
   ("/people", "people_search"),
   ("/contacts", "contacts_page"),
   ("/companies", "companies_page"),
   ("/sequences", "sequences_page"),
   ("qOrganizationSearchListId", "filtered_search")]

/-- Embedding of ApolloMonitoringSystem._detect_apollo_state (lines
203-208): the state of the first pattern occurring as a substring of the
URL, in dictionary insertion order, else None. -/
def _detect_apollo_state (url : String) : Option String :=
  (apollo_state_map.find? (fun p => hasSub p.1.data url.data)).map (fun p => p.2)

/-- C5: _detect_apollo_state returns the state mapped from the first
pattern, in the fixed insertion order of apollo_state_map, occurring as a
substring of the URL, and returns None exactly when none of the six
patterns occurs in the URL. -/
theorem c5_detect_apollo_state (url : String) :
    (_detect_apollo_state url = none ↔
      ∀ p ∈ apollo_state_map, ¬ ∃ a b, url.data = a ++ p.1.data ++ b) ∧
    (∀ st, _detect_apollo_state url = some st ↔
      ∃ pre post pat, apollo_state_map = pre ++ (pat, st) :: post ∧
        (∃ a b, url.data = a ++ pat.data ++ b) ∧
        ∀ p ∈ pre, ¬ ∃ a b, url.data = a ++ p.1.data ++ b) ∧
    apollo_state_map.length = 6 := by
  refine ⟨?_, ?_, by decide⟩
  · unfold _detect_apollo_state
    rw [Option.map_eq_none']
    rw [List.find?_eq_none]
    constructor
    · intro h p hp hsub
      have := h p hp
      rw [← hasSub_iff] at hsub
      simp [hsub] at this
    · intro h p hp
      have := h p hp
      rw [← hasSub_iff] at this
      simp only [Bool.not_eq_true] at this ⊢
      exact this
  · intro st
    unfold _detect_apollo_state
    rw [Option.map_eq_some']
    constructor
    · rintro ⟨pfound, hfind, hsnd⟩
      rcases List.find?_eq_some.mp hfind with ⟨hsub, as, bs, hsplit, hpre⟩
      refine ⟨as, bs, pfound.1, ?_, ?_, ?_⟩
      · rw [hsplit, ← hsnd]
      · exact (hasSub_iff pfound.1.data url.data).mp hsub
      · intro p hp hex
        have := hpre p hp
        rw [← hasSub_iff] at hex
        simp [hex] at this
    · rintro ⟨pre, post, pat, hsplit, hex, hpre⟩
      refine ⟨(pat, st), ?_, rfl⟩
      apply List.find?_eq_some.mpr
      refine ⟨?_, pre, post, hsplit, ?_⟩
      · exact (hasSub_iff pat.data url.data).mpr hex
      · intro p hp
        have := hpre p hp
        rw [← hasSub_iff] at this
        simp only [Bool.not_eq_true] at this
        simp [this]

/-- Witness for C5: a URL matching none of the six patterns is mapped to no
state. -/
theorem c5_detect_apollo_state_witness :
    _detect_apollo_state "https://example.org/" = none :=
  (c5_detect_apollo_state "https://example.org/").1.mpr (by
    intro p hp
    rw [← hasSub_iff]
    fin_cases hp <;> decide)

/-! ## Session validation fallback classification (session_manager.py) -/

/-- The exact value the validation task text instructs the agent to return
when the user is not logged in (the task string at line 165 of
session_manager.py). -/
def notLoggedInToken : String := "NOT_LOGGED_IN"

/-- Embedding of the non-structured fallback classification in
validate_session (lines 187-191): uppercase the result and test the three
substrings. -/
def classify_validation_result (resultStr : String) : Bool :=
  hasSub "LOGGED_IN".data (upperCL resultStr.data) ||
  hasSub "DASHBOARD".data (upperCL resultStr.data) ||
  hasSub "HOME".data (upperCL resultStr.data)

/-- What validate_session then does with the classification (lines
193-202): cache and return True on success, raise SessionExpiredError
otherwise. -/
inductive ValidationOutcome
  | validTrue
  | raiseSessionExpired
deriving DecidableEq

/-- Embedding of the tail of validate_session for a non-structured agent
result. -/
def validate_session_nonstructured (resultStr : String) : ValidationOutcome :=
  if classify_validation_result resultStr then .validTrue
  else .raiseSessionExpired

/-- C8: a non-structured result is classified as a valid session exactly
when its uppercased text contains LOGGED_IN, DASHBOARD or HOME as a
substring; in particular the instructed failure value NOT_LOGGED_IN
contains LOGGED_IN, so it is classified as valid and True is returned
instead of SessionExpiredError being raised. -/
theorem c8_not_logged_in_classified_valid :
    (∀ s, classify_validation_result s = true ↔
      ((∃ a b, upperCL s.data = a ++ "LOGGED_IN".data ++ b) ∨
       (∃ a b, upperCL s.data = a ++ "DASHBOARD".data ++ b) ∨
       (∃ a b, upperCL s.data = a ++ "HOME".data ++ b))) ∧
    (∀ s, validate_session_nonstructured s = .validTrue ↔
      classify_validation_result s = true) ∧
    classify_validation_result notLoggedInToken = true ∧
    validate_session_nonstructured notLoggedInToken = .validTrue := by
  refine ⟨?_, ?_, by decide, by decide⟩
  · intro s
    simp only [classify_validation_result, Bool.or_eq_true, hasSub_iff]
    rw [or_assoc]
  · intro s
    unfold validate_session_nonstructured
    by_cases h : classify_validation_result s = true
    · simp [h]
    · simp [h]

/-! ## Allowed-domain check (monitoring.py) -/

/-- Characters accepted inside a URL scheme by urllib urlsplit. -/
def isSchemeChar (c : Char) : Bool :=
  c.isAlpha || c.isDigit || c = '+' || c = '-' || c = '.'

/-- Scheme removal as urlsplit performs it: when the text before the first
colon is nonempty, starts with an ASCII letter and consists of scheme
characters, everything through that colon is dropped. -/
def stripScheme (l : List Char) : List Char :=
  match breakAt ':' l with
  | none => l
  | some p =>
    match p.1 with
    | [] => l
    | c :: rest => if c.isAlpha && (c :: rest).all isSchemeChar then p.2 else l

/-- The network location as urlparse extracts it: present only when the
remainder after the scheme starts with two slashes, and running up to the
next slash, question mark or hash. -/
def netlocOf (l : List Char) : List Char :=
  match stripScheme l with
  | '/' :: '/' :: rest => rest.takeWhile (fun c => !(c = '/' || c = '?' || c = '#'))
  | _ => []

/-- The allowed_domains list inside _is_allowed_domain (line 212). -/
def allowed_domains_list : List String :=
  ["apollo.io", "google.com", "googleusercontent.com"]

/-- Embedding of ApolloMonitoringSystem._is_allowed_domain (lines 210-216):
a pure substring containment test on the lowercased netloc. -/
def _is_allowed_domain (url : String) : Bool :=
  (allowed_domains_list).any (fun d => hasSub d.data (lowerCL (netlocOf url.data)))

/-- Whether step_start_monitor appends an unauthorized_navigation security
alert for the URL (lines 150-162): exactly when the domain check fails. -/
def step_alert_raised (url : String) : Bool := !(_is_allowed_domain url)

/-- C10: _is_allowed_domain accepts a URL exactly when the lowercased
netloc contains one of the three allowed strings anywhere as a substring,
not merely as a suffix or registered domain, so a host that embeds
apollo.io in the middle of its name is accepted and raises no
unauthorized-navigation alert. -/
theorem c10_allowed_domain_containment :
    (∀ url, _is_allowed_domain url = true ↔
      ∃ d ∈ allowed_domains_list, ∃ a b,
        lowerCL (netlocOf url.data) = a ++ d.data ++ b) ∧
    (∀ url, step_alert_raised url = false ↔ _is_allowed_domain url = true) ∧
    netlocOf "https://apollo.io.attacker.example/path".data =
      "apollo.io.attacker.example".data ∧
    _is_allowed_domain "https://apollo.io.attacker.example/path" = true ∧
    step_alert_raised "https://apollo.io.attacker.example/path" = false := by
  refine ⟨?_, ?_, by decide, by decide, by decide⟩
  · intro url
    simp [_is_allowed_domain, List.any_eq_true, hasSub_iff]
  · intro url
    simp [step_alert_raised]

/-! ## Dataset saving (fetch_apify_data.py) -/

/-- A contacts DataFrame as process_contacts builds it: column names and
rows of possibly-null cell values. -/
structure DataFrame where
  columns : List String
  rows : List (List (Option String))
deriving DecidableEq

/-- The pandas DataFrame.empty test: true when either axis has length
zero. -/
def dfEmpty (d : DataFrame) : Bool := d.rows.isEmpty || d.columns.isEmpty

/-- Index of the email column, when present. -/
def emailColIdx (d : DataFrame) : Option Nat := d.columns.findIdx? (· == "email")

/-- A value placed into the metadata dictionary, tagged with the Python
type that reaches json.dump: the json module serializes Python ints,
strings and lists of strings, but raises TypeError on a numpy int64
scalar, which is the type a pandas Series sum returns. -/
inductive PyVal
  | pyInt (n : Nat)
  | npInt64 (n : Nat)
deriving DecidableEq

/-- Whether the json module can serialize the tagged value. -/
def jsonSerializable : PyVal → Bool
  | .npInt64 _ => false
  | .pyInt _ => true

/-- The contacts_with_email entry of the metadata dictionary in save_data
(line 141): the numpy int64 sum of notna over the email column when that
column exists, and the Python int 0 otherwise. -/
def contactsWithEmailEntry (d : DataFrame) : PyVal :=
  match emailColIdx d with
  | none => .pyInt 0
  | some i => .npInt64 (d.rows.countP (fun r => (r.getD i none).isSome))

/-- The metadata dictionary save_data builds (lines 136-142), without the
extraction_date timestamp field, which plays no role in the claim. -/
structure SaveMetadata where
  dataset_id : String
  total_contacts : Nat
  columns : List String
  contacts_with_email : PyVal
deriving DecidableEq

/-- Content of a file save_data writes to completion. -/
inductive FileContent
  | csv (d : DataFrame)
  | jsonRecords (d : DataFrame)
  | metadataJson (m : SaveMetadata)
deriving DecidableEq

/-- Embedding of save_data from fetch_apify_data.py (lines 111-147).  The
result is the list of files written to completion paired with whether a
TypeError escapes: when the metadata holds a numpy int64, json.dump raises
after the CSV and JSON files are complete, so the metadata file never
receives a valid JSON document and the exception propagates. -/
def save_data (df : Option DataFrame) (dataset_id : String) (timestamp : String) :
    List (String × FileContent) × Bool :=
  match df with
  | none => ([], false)
  | some d =>
    if dfEmpty d then ([], false)
    else
      let base := "apollo_contacts_" ++ timestamp
      let meta : SaveMetadata :=
        ⟨dataset_id, d.rows.length, d.columns, contactsWithEmailEntry d⟩
      if jsonSerializable meta.contacts_with_email then
        ([("output/" ++ base ++ ".csv", FileContent.csv d),
          ("output/" ++ base ++ ".json", FileContent.jsonRecords d),
          ("output/" ++ base ++ "_metadata.json", FileContent.metadataJson meta)],
         false)
      else
        ([("output/" ++ base ++ ".csv", FileContent.csv d),
          ("output/" ++ base ++ ".json", FileContent.jsonRecords d)],
         true)

/-- C6 (code bug): save_data writes nothing for a None or empty DataFrame
and writes the three described files for a non-empty DataFrame without an
email column; but for every non-empty DataFrame that does have an email
column the pandas sum is a numpy int64, json.dump raises TypeError, and
only the CSV and JSON files are completed, the metadata file never
receiving the described content; the final conjunct evaluates the failing
input of a single contact row with an email column. -/
theorem c6_save_data_email_typeerror :
    (∀ dataset_id ts, save_data none dataset_id ts = ([], false)) ∧
    (∀ d dataset_id ts, dfEmpty d = true →
      save_data (some d) dataset_id ts = ([], false)) ∧
    (∀ d dataset_id ts, dfEmpty d = false → "email" ∉ d.columns →
      save_data (some d) dataset_id ts =
        ([("output/" ++ ("apollo_contacts_" ++ ts) ++ ".csv", FileContent.csv d),
          ("output/" ++ ("apollo_contacts_" ++ ts) ++ ".json", FileContent.jsonRecords d),
          ("output/" ++ ("apollo_contacts_" ++ ts) ++ "_metadata.json",
            FileContent.metadataJson ⟨dataset_id, d.rows.length, d.columns, .pyInt 0⟩)],
         false)) ∧
    (∀ d dataset_id ts, dfEmpty d = false → "email" ∈ d.columns →
      save_data (some d) dataset_id ts =
        ([("output/" ++ ("apollo_contacts_" ++ ts) ++ ".csv", FileContent.csv d),
          ("output/" ++ ("apollo_contacts_" ++ ts) ++ ".json", FileContent.jsonRecords d)],
         true)) ∧
    save_data (some ⟨["email"], [[some "a@b.c"]]⟩) "ds1" "20260101_000000" =
      ([("output/apollo_contacts_20260101_000000.csv",
          FileContent.csv ⟨["email"], [[some "a@b.c"]]⟩),
        ("output/apollo_contacts_20260101_000000.json",
          FileContent.jsonRecords ⟨["email"], [[some "a@b.c"]]⟩)],
       true) := by
  have hentry_none : ∀ d : DataFrame, "email" ∉ d.columns →
      contactsWithEmailEntry d = .pyInt 0 := by
    intro d hmem
    unfold contactsWithEmailEntry emailColIdx
    rw [List.findIdx?_eq_none_iff.mpr]
    intro x hx
    by_cases hxe : x = "email"
    · exact absurd (hxe ▸ hx) hmem
    · simpa using hxe
  have hentry_some : ∀ d : DataFrame, "email" ∈ d.columns →
      ∃ n, contactsWithEmailEntry d = .npInt64 n := by
    intro d hmem
    unfold contactsWithEmailEntry
    cases hidx : emailColIdx d with
    | none =>
      exfalso
      have := List.findIdx?_eq_none_iff.mp hidx "email" hmem
      simp at this
    | some i => exact ⟨_, rfl⟩
  refine ⟨fun dataset_id ts => rfl, ?_, ?_, ?_, by decide⟩
  · intro d dataset_id ts hemp
    simp [save_data, hemp]
  · intro d dataset_id ts hemp hmem
    have he := hentry_none d hmem
    simp [save_data, hemp, he, jsonSerializable]
  · intro d dataset_id ts hemp hmem
    rcases hentry_some d hmem with ⟨n, he⟩
    simp [save_data, hemp, he, jsonSerializable]

/-- Witness for C6: a non-empty DataFrame without an email column does get
all three files, with a zero email count in the metadata. -/
theorem c6_save_data_email_typeerror_witness :
    save_data (some ⟨["name"], [[some "Ada"]]⟩) "ds2" "20260101_000001" =
      ([("output/" ++ ("apollo_contacts_" ++ "20260101_000001") ++ ".csv",
          FileContent.csv ⟨["name"], [[some "Ada"]]⟩),
        ("output/" ++ ("apollo_contacts_" ++ "20260101_000001") ++ ".json",
          FileContent.jsonRecords ⟨["name"], [[some "Ada"]]⟩),
        ("output/" ++ ("apollo_contacts_" ++ "20260101_000001") ++ "_metadata.json",
          FileContent.metadataJson ⟨"ds2", 1, ["name"], .pyInt 0⟩)],
       false) :=
  (c6_save_data_email_typeerror).2.2.1 ⟨["name"], [[some "Ada"]]⟩ "ds2" "20260101_000001"
    (by decide) (by decide)

/-! ## Environment-variable configuration loading (config.py) -/

/-- Whitespace stripped by Python numeric constructors (ASCII subset). -/
def isPyWs (c : Char) : Bool :=
  c.toNat = 32 || c.toNat = 9 || c.toNat = 10 || c.toNat = 13 ||
  c.toNat = 11 || c.toNat = 12

/-- Strip leading and trailing whitespace. -/
def stripWs (l : List Char) : List Char :=
  ((l.dropWhile isPyWs).reverse.dropWhile isPyWs).reverse

/-- Tail of a Python digit group: digits with single underscores allowed
only between digits. -/
def digitsTail : List Char → Bool
  | [] => true
  | ['_'] => false
  | '_' :: c :: rest => c.isDigit && digitsTail rest
  | c :: rest => c.isDigit && digitsTail rest

/-- A Python digit group: nonempty, starting with a digit, underscores
only between digits. -/
def isDigitSeq : List Char → Bool
  | [] => false
  | c :: rest => c.isDigit && digitsTail rest

/-- Numeric value of a digit group, skipping underscores. -/
def digitsVal (l : List Char) : Nat :=
  l.foldl (fun a c => if c = '_' then a else a * 10 + (c.toNat - 48)) 0

/-- Number of digits in a digit group, not counting underscores. -/
def digitsLen (l : List Char) : Nat :=
  (l.filter (fun c => !(c = '_'))).length

/-- Leading sign of a numeric literal: negativity flag and the rest. -/
def splitSign : List Char → Bool × List Char
  | '+' :: rest => (false, rest)
  | '-' :: rest => (true, rest)
  | rest => (false, rest)

/-- Embedding of the Python int constructor on strings (ASCII digits):
optional surrounding whitespace, optional sign, one digit group. -/
def pyIntParse (s : String) : Option Int :=
  let sr := splitSign (stripWs s.data)
  if isDigitSeq sr.2 then
    some (if sr.1 then -(Int.ofNat (digitsVal sr.2)) else Int.ofNat (digitsVal sr.2))
  else none

/-- Predicate split used to cut a float literal at its exponent marker. -/
def breakAtP (p : Char → Bool) : List Char → Option (List Char × List Char)
  | [] => none
  | c :: rest =>
    if p c then some ([], rest)
    else (breakAtP p rest).map (fun q => (c :: q.1, q.2))

/-- A Python float value: finite values are carried as the exact rational
the literal denotes (the claim never inspects the rounded binary value),
plus signed infinity and nan. -/
inductive PyFloat
  | finite (q : Rat)
  | inf (neg : Bool)
  | nan
deriving DecidableEq

/-- Mantissa of a float literal: digits with an optional point, at least
one digit overall. -/
def parseMantissa (l : List Char) : Option Rat :=
  match breakAt '.' l with
  | none => if isDigitSeq l then some ((digitsVal l : Nat) : Rat) else none
  | some ip_fp =>
    if isDigitSeq ip_fp.1 && (ip_fp.2.isEmpty || isDigitSeq ip_fp.2) then
      some (((digitsVal ip_fp.1 : Nat) : Rat) +
        ((digitsVal ip_fp.2 : Nat) : Rat) / (10 : Rat) ^ (digitsLen ip_fp.2))
    else if ip_fp.1.isEmpty && isDigitSeq ip_fp.2 then
      some (((digitsVal ip_fp.2 : Nat) : Rat) / (10 : Rat) ^ (digitsLen ip_fp.2))
    else none

/-- Exponent of a float literal: optional sign and one digit group. -/
def parseExpPart (l : List Char) : Option Int :=
  let sr := splitSign l
  if isDigitSeq sr.2 then
    some (if sr.1 then -(Int.ofNat (digitsVal sr.2)) else Int.ofNat (digitsVal sr.2))
  else none

/-- A float literal without sign: mantissa with optional exponent. -/
def parseDecimal (l : List Char) : Option Rat :=
  match breakAtP (fun c => c = 'e' || c = 'E') l with
  | none => parseMantissa l
  | some me =>
    match parseMantissa me.1, parseExpPart me.2 with
    | some q, some ex => some (q * (10 : Rat) ^ ex)
    | _, _ => none

/-- Embedding of the Python float constructor on strings (ASCII digits):
whitespace, optional sign, then a decimal literal or one of the words inf,
infinity, nan in any case. -/
def pyFloatParse (s : String) : Option PyFloat :=
  let sr := splitSign (stripWs s.data)
  if lowerCL sr.2 = "inf".data ∨ lowerCL sr.2 = "infinity".data then
    some (.inf sr.1)
  else if lowerCL sr.2 = "nan".data then some .nan
  else (parseDecimal sr.2).map (fun q => .finite (if sr.1 then -q else q))

/-- The type column of the env_mappings table. -/
inductive VType
  | tBool
  | tInt
  | tFloat
  | tStr
deriving DecidableEq

/-- A configuration field value of one of the four mapped types. -/
inductive ConfigValue
  | b (v : Bool)
  | i (v : Int)
  | f (v : PyFloat)
  | s (v : String)
deriving DecidableEq

/-- One row of the env_mappings table of load_from_environment. -/
structure EnvMapping where
  envVar : String
  sectionName : String
  key : String
  vtype : VType
deriving DecidableEq

/-- The fixed env_mappings table (config.py lines 259-283), in insertion
order. -/
def env_mappings : List EnvMapping :=
  [⟨"APOLLO_HEADLESS", "browser", "headless", .tBool⟩,
   ⟨"APOLLO_STEALTH", "browser", "stealth", .tBool⟩,
   ⟨"APOLLO_VIEWPORT_WIDTH", "browser", "viewport_width", .tInt⟩,
   ⟨"APOLLO_VIEWPORT_HEIGHT", "browser", "viewport_height", .tInt⟩,
   ⟨"APOLLO_MAX_CONTACTS", "apollo", "max_contacts", .tInt⟩,
   ⟨"APOLLO_REQUEST_DELAY", "apollo", "request_delay", .tFloat⟩,
   ⟨"APOLLO_MAX_RETRIES", "apollo", "max_retries", .tInt⟩,
   ⟨"APIFY_ACTOR_ID", "apify", "actor_id", .tStr⟩,
   ⟨"APIFY_TIMEOUT", "apify", "timeout", .tInt⟩,
   ⟨"APIFY_MEMORY_MB", "apify", "memory_mb", .tInt⟩,
   ⟨"APOLLO_ENABLE_ENCRYPTION", "security", "enable_encryption", .tBool⟩,
   ⟨"APOLLO_SESSION_TIMEOUT", "security", "session_timeout_minutes", .tInt⟩,
   ⟨"APOLLO_LOG_LEVEL", "logging", "log_level", .tStr⟩,
   ⟨"APOLLO_LOG_DIRECTORY", "logging", "log_directory", .tStr⟩]

/-- The configuration field a row writes to. -/
def mappingField (m : EnvMapping) : String × String := (m.sectionName, m.key)

/-- The configuration state: each section-and-attribute pair carries a
value. -/
def Config : Type := (String × String) → ConfigValue

/-- setattr on a configuration section object. -/
def updateCfg (c : Config) (field : String × String) (v : ConfigValue) : Config :=
  fun f => if f = field then v else c f

/-- The four lowercased tokens Python code treats as a true boolean
environment value. -/
def boolTrueTokens : List (List Char) :=
  ["true".data, "1".data, "yes".data, "on".data]

/-- The type conversion block of load_from_environment (lines 289-297):
bool by membership of the lowercased value in the token tuple, int and
float by the Python constructors (None modelling the ValueError path),
strings verbatim. -/
def convertEnv : VType → String → Option ConfigValue
  | .tBool, v => some (.b (boolTrueTokens.contains (lowerCL v.data)))
  | .tInt, v => (pyIntParse v).map ConfigValue.i
  | .tFloat, v => (pyFloatParse v).map ConfigValue.f
  | .tStr, v => some (.s v)

/-- One iteration of the load_from_environment loop for one table row:
skip when the variable is unset, keep the old value when conversion
fails, overwrite otherwise. -/
def applyMapping (env : String → Option String) (c : Config) (m : EnvMapping) :
    Config :=
  match env m.envVar with
  | none => c
  | some v =>
    match convertEnv m.vtype v with
    | none => c
    | some cv => updateCfg c (mappingField m) cv

/-- Embedding of ApolloConfigManager.load_from_environment (lines
257-313). -/
def load_from_environment (env : String → Option String) (c : Config) : Config :=
  env_mappings.foldl (applyMapping env) c

theorem applyMapping_ne (env : String → Option String) (c : Config)
    (x : EnvMapping) (f : String × String) (h : mappingField x ≠ f) :
    applyMapping env c x f = c f := by
  unfold applyMapping
  cases henv : env x.envVar with
  | none => rfl
  | some v =>
    show (match convertEnv x.vtype v with
      | none => c
      | some cv => updateCfg c (mappingField x) cv) f = c f
    cases hc : convertEnv x.vtype v with
    | none => rfl
    | some cv =>
      show updateCfg c (mappingField x) cv f = c f
      unfold updateCfg
      rw [if_neg (fun hf => h hf.symm)]

theorem applyMapping_self (env : String → Option String) (c : Config)
    (m : EnvMapping) :
    applyMapping env c m (mappingField m) =
      match env m.envVar with
      | none => c (mappingField m)
      | some v => (convertEnv m.vtype v).getD (c (mappingField m)) := by
  unfold applyMapping
  cases henv : env m.envVar with
  | none => rfl
  | some v =>
    show (match convertEnv m.vtype v with
      | none => c
      | some cv => updateCfg c (mappingField m) cv) (mappingField m) =
      (convertEnv m.vtype v).getD (c (mappingField m))
    cases hc : convertEnv m.vtype v with
    | none => rfl
    | some cv =>
      show updateCfg c (mappingField m) cv (mappingField m) = cv
      simp [updateCfg]

theorem foldl_apply_ne (env : String → Option String) (l : List EnvMapping)
    (c : Config) (f : String × String) (h : ∀ m ∈ l, mappingField m ≠ f) :
    (l.foldl (applyMapping env) c) f = c f := by
  induction l generalizing c with
  | nil => rfl
  | cons x t ih =>
    rw [List.foldl_cons]
    rw [ih (applyMapping env c x) (fun m hm => h m (List.mem_cons_of_mem x hm))]
    exact applyMapping_ne env c x f (h x (List.mem_cons_self x t))

theorem foldl_apply_at (env : String → Option String) (l : List EnvMapping)
    (cfg : Config) (m : EnvMapping) (hm : m ∈ l)
    (hnd : (l.map mappingField).Nodup) :
    (l.foldl (applyMapping env) cfg) (mappingField m) =
      match env m.envVar with
      | none => cfg (mappingField m)
      | some v => (convertEnv m.vtype v).getD (cfg (mappingField m)) := by
  induction l generalizing cfg with
  | nil => exact absurd hm (List.not_mem_nil m)
  | cons x t ih =>
    rw [List.map_cons, List.nodup_cons] at hnd
    rcases List.mem_cons.mp hm with hmx | hmt
    · subst hmx
      rw [List.foldl_cons]
      rw [foldl_apply_ne env t (applyMapping env cfg m) (mappingField m)
        (fun m2 hm2 heq => hnd.1 (heq ▸ List.mem_map_of_mem mappingField hm2))]
      exact applyMapping_self env cfg m
    · rw [List.foldl_cons]
      rw [ih (applyMapping env cfg x) hmt hnd.2]
      have hne : mappingField x ≠ mappingField m := by
        intro heq
        exact hnd.1 (heq ▸ List.mem_map_of_mem mappingField hmt)
      rw [applyMapping_ne env cfg x (mappingField m) hne]

/-- C7: every set variable of the env_mappings table overwrites exactly its
mapped configuration field with the converted value; a boolean variable
converts to True exactly when its lowercased value is true, 1, yes or on;
and when an int- or float-typed value fails numeric conversion the field
keeps its previous value. -/
theorem c7_environment_overrides (env : String → Option String) (cfg : Config)
    (m : EnvMapping) (hm : m ∈ env_mappings) :
    (env m.envVar = none →
      load_from_environment env cfg (mappingField m) = cfg (mappingField m)) ∧
    (∀ v, env m.envVar = some v →
      load_from_environment env cfg (mappingField m) =
        (convertEnv m.vtype v).getD (cfg (mappingField m))) ∧
    (∀ v, convertEnv .tBool v = some (.b true) ↔
      (lowerCL v.data = "true".data ∨ lowerCL v.data = "1".data ∨
       lowerCL v.data = "yes".data ∨ lowerCL v.data = "on".data)) ∧
    (∀ v, m.vtype = .tInt → env m.envVar = some v → pyIntParse v = none →
      load_from_environment env cfg (mappingField m) = cfg (mappingField m)) ∧
    (∀ v, m.vtype = .tFloat → env m.envVar = some v → pyFloatParse v = none →
      load_from_environment env cfg (mappingField m) = cfg (mappingField m)) := by
  have hnd : (env_mappings.map mappingField).Nodup := by decide
  have hbase := foldl_apply_at env env_mappings cfg m hm hnd
  refine ⟨?_, ?_, ?_, ?_, ?_⟩
  · intro h
    unfold load_from_environment
    rw [hbase, h]
  · intro v h
    unfold load_from_environment
    rw [hbase, h]
  · intro v
    have hcontains : boolTrueTokens.contains (lowerCL v.data) = true ↔
        (lowerCL v.data = "true".data ∨ lowerCL v.data = "1".data ∨
         lowerCL v.data = "yes".data ∨ lowerCL v.data = "on".data) := by
      simp [boolTrueTokens, List.contains_iff_exists_mem_beq]
    constructor
    · intro h
      have h1 : some (ConfigValue.b (boolTrueTokens.contains (lowerCL v.data))) =
          some (ConfigValue.b true) := h
      exact hcontains.mp (ConfigValue.b.inj (Option.some.inj h1))
    · intro h
      have hc := hcontains.mpr h
      show some (ConfigValue.b (boolTrueTokens.contains (lowerCL v.data))) =
        some (ConfigValue.b true)
      rw [hc]
  · intro v hty h hp
    unfold load_from_environment
    rw [hbase, h, hty]
    simp [convertEnv, hp]
  · intro v hty h hp
    unfold load_from_environment
    rw [hbase, h, hty]
    simp [convertEnv, hp]

/-- Witness for C7: APOLLO_HEADLESS set to TRUE overwrites the headless
field of the browser section with the boolean True. -/
theorem c7_environment_overrides_witness :
    load_from_environment
        (fun k => if k = "APOLLO_HEADLESS" then some "TRUE" else none)
        (fun _ => ConfigValue.s "initial") ("browser", "headless") =
      ConfigValue.b true := by
  have h := (c7_environment_overrides
    (fun k => if k = "APOLLO_HEADLESS" then some "TRUE" else none)
    (fun _ => ConfigValue.s "initial")
    ⟨"APOLLO_HEADLESS", "browser", "headless", .tBool⟩ (by decide)).2.1
    "TRUE" (by decide)
  rw [show (("browser", "headless") : String × String) =
    mappingField ⟨"APOLLO_HEADLESS", "browser", "headless", .tBool⟩ from rfl, h]
  decide

end BrowserApollo
